import Mathlib

/-!
Verification of the formatting state machine of svl-tin-sql-formatter
(src/core/Formatter.js) against its natural-language specification.

The formatter core (Formatter.js) is embedded faithfully below.  The
collaborating modules Indentation.js, InlineBlock.js, Params.js and
tokenTypes.js are not part of the provided sources, so they are modelled
from the specification text (each such definition carries a doc comment
starting with `Modelled from the spec:`).  The tokenizer is external.
-/

namespace SqlFmt

/-- Modelled from the spec: tokenTypes.js is not in src.  The spec gives a
closed enumeration of token types; plain punctuation and identifiers or
literals are indistinguishable to Formatter.js (which dispatches on them by
value only), so both are represented by the constructor OTHER. -/
inductive TokenType where
  | WHITESPACE
  | LINE_COMMENT
  | BLOCK_COMMENT
  | RESERVED_TOPLEVEL
  | RESERVED_NEWLINE
  | RESERVED_NEWLINE_WITH_INDENT
  | RESERVED
  | OPEN_PAREN
  | CLOSE_PAREN
  | PLACEHOLDER
  | OTHER
deriving DecidableEq

/-- A token as consumed by the formatter: a type tag and its source text. -/
structure Token where
  type : TokenType
  value : String
deriving DecidableEq

/-- Configuration of a Formatter instance: the indent unit string
(cfg.indent), cfg.maxCharacterPerLine (0 disables the overflow feature) and
the placeholder parameter mapping (cfg.params). -/
structure Config where
  indent : String
  maxCharacterPerLine : Nat
  params : List (String × String)
deriving DecidableEq

/-- The mutable state of a Formatter instance: the four indentation
counters (Indentation.js), the inline block nesting level (InlineBlock.js),
previousReservedWord.value and nextLinePrepend. -/
structure FmtState where
  topLevel : Nat
  blockLevel : Nat
  newLineWithIndentLevel : Nat
  maxCharacterLevel : Nat
  inlineLevel : Nat
  previousReservedValue : String
  nextLinePrepend : String
deriving DecidableEq

/-- The state set up by the Formatter constructor: all counters zero, no
inline block, previousReservedWord is the empty object (its value tests
false against the LIMIT regex, modelled as the empty string) and an empty
nextLinePrepend. -/
def initialState : FmtState :=
  { topLevel := 0, blockLevel := 0, newLineWithIndentLevel := 0,
    maxCharacterLevel := 0, inlineLevel := 0,
    previousReservedValue := "", nextLinePrepend := "" }

/-- JavaScript whitespace characters as relevant to this code base
(the regex class backslash-s and the characters trimmed by lodash trimEnd
and String.prototype.trim), restricted to the ASCII range. -/
def jsWS (c : Char) : Bool :=
  c = ' ' || c = '\t' || c = '\n' || c = '\r' || c = '\x0b' || c = '\x0c'

/-- Trailing-whitespace trim on a character list (lodash trimEnd). -/
def trimEndL (cs : List Char) : List Char :=
  (cs.reverse.dropWhile jsWS).reverse

/-- lodash trimEnd, as used throughout Formatter.js. -/
def trimEnd (s : String) : String := ⟨trimEndL s.data⟩

/-- Leading-whitespace trim on a character list. -/
def trimStartL (cs : List Char) : List Char := cs.dropWhile jsWS

/-- JavaScript String.prototype.trim: whitespace removed at both ends. -/
def jsTrim (s : String) : String := ⟨trimEndL (trimStartL s.data)⟩

/-- The text after the last newline of the buffer: the last element of
query.split(newline) in checkMaxCharacter. -/
def lastLine (s : String) : String :=
  ⟨(s.data.reverse.takeWhile (fun c => c ≠ '\n')).reverse⟩

/-- Worker for equalizeWhitespace: the flag records whether the previous
character belonged to a whitespace run that has already been replaced. -/
def equalizeWSAux : Bool → List Char → List Char
  | _, [] => []
  | prevWS, c :: rest =>
    if jsWS c then
      if prevWS then equalizeWSAux true rest
      else ' ' :: equalizeWSAux true rest
    else c :: equalizeWSAux false rest

/-- Formatter.equalizeWhitespace: every run of whitespace characters is
replaced by a single space. -/
def equalizeWhitespace (s : String) : String := ⟨equalizeWSAux false s.data⟩

/-- First occurrence of two dashes replaced by a block comment opener:
value.replace(dashdash, slashstar) in formatLineComment. -/
def replaceDashDash : List Char → List Char
  | [] => []
  | c :: rest =>
    match c, rest with
    | '-', '-' :: rest' => '/' :: '*' :: rest'
    | _, _ => c :: replaceDashDash rest

/-- Removal of the first newline: value.replace(newline, empty) in
formatLineComment. -/
def removeFirstNl : List Char → List Char
  | [] => []
  | c :: rest => if c = '\n' then rest else c :: removeFirstNl rest

/-- The text emitted for a line comment by formatLineComment: the first
two dashes become a block comment opener, the first newline is removed and
a closing delimiter is appended. -/
def lineCommentText (v : String) : String :=
  String.mk (removeFirstNl (replaceDashDash v.data)) ++ " */"

/-- Modelled from the spec: Indentation.js is not in src.  The current
indentation text is the indent unit repeated as many times as the sum of
the four counters. -/
def getIndent (cfg : Config) (s : FmtState) : String :=
  ⟨(List.replicate
      (s.topLevel + s.blockLevel + s.newLineWithIndentLevel + s.maxCharacterLevel)
      cfg.indent.data).flatten⟩

/-- Formatter.addNewline: trim trailing whitespace, append one newline and
the current indentation text. -/
def addNewline (cfg : Config) (s : FmtState) (q : String) : String :=
  trimEnd q ++ "\n" ++ getIndent cfg s

/-- Every newline inside a block comment gets the current indent appended
after it: comment.replace(all newlines, newline plus indent) in
indentComment. -/
def replaceNlL (ind : List Char) : List Char → List Char
  | [] => []
  | c :: rest =>
    if c = '\n' then '\n' :: (ind ++ replaceNlL ind rest)
    else c :: replaceNlL ind rest

/-- Formatter.indentComment. -/
def indentComment (cfg : Config) (s : FmtState) (v : String) : String :=
  ⟨replaceNlL (getIndent cfg s).data v.data⟩

/-- Simple association list lookup used by the placeholder resolver. -/
def lookupValue : List (String × String) → String → Option String
  | [], _ => none
  | (k, x) :: rest, v => if k = v then some x else lookupValue rest v

/-- Modelled from the spec: Params.js is not in src.  The placeholder
resolver is a stateless total lookup that returns the caller-supplied
substitution for a bound placeholder and the original literal token text
unchanged otherwise. -/
def paramsGet (ps : List (String × String)) (v : String) : String :=
  match lookupValue ps v with
  | some x => x
  | none => v

/-- ASCII upper-casing of one character (String.prototype.toUpperCase and
the case-insensitive regex flag, restricted to ASCII as all reserved SQL
keywords in this code base are ASCII). -/
def toUpperChar (c : Char) : Char :=
  if 'a' ≤ c ∧ c ≤ 'z' then Char.ofNat (c.toNat - 32) else c

/-- ASCII upper-casing of a string. -/
def toUpperAscii (s : String) : String := ⟨s.data.map toUpperChar⟩

/-- The anchored case-insensitive LIMIT regex of formatComma: it accepts
exactly the strings whose upper-casing is LIMIT. -/
def limitKeywordTest (v : String) : Bool := toUpperAscii v = "LIMIT"

/-- Modelled from the spec: InlineBlock.js is not in src.  A token that
forces multiline rendering inside a parenthesized region: top-level and
newline reserved keywords (a subquery or multi-clause body) and comments. -/
def isForbiddenInline (t : Token) : Bool :=
  t.type = TokenType.RESERVED_TOPLEVEL ||
  t.type = TokenType.RESERVED_NEWLINE ||
  t.type = TokenType.RESERVED_NEWLINE_WITH_INDENT ||
  t.type = TokenType.LINE_COMMENT ||
  t.type = TokenType.BLOCK_COMMENT

/-- Modelled from the spec: the short-block threshold for inline
rendering (a tunable constant, 50 characters). -/
def inlineMaxLength : Nat := 50

/-- Modelled from the spec: InlineBlock eligibility.  Starting at the
opening parenthesis, scan forward tracking nested parenthesis depth to the
structurally matching close; the region is inline-eligible when it
contains no forbidden token and its rendered length, parentheses included,
does not exceed the threshold.  A parenthesis with no discoverable match
is not inline (multiline is the safe default). -/
def isInlineBlock : Nat → Nat → List Token → Bool
  | _, _, [] => false
  | len, depth, t :: rest =>
    let len' := len + t.value.length
    if len' > inlineMaxLength then false
    else if t.type = TokenType.OPEN_PAREN then isInlineBlock len' (depth + 1) rest
    else if t.type = TokenType.CLOSE_PAREN then
      if depth = 1 then true else isInlineBlock len' (depth - 1) rest
    else if isForbiddenInline t then false
    else isInlineBlock len' depth rest

/-- Modelled from the spec: InlineBlock.beginIfPossible.  While a block is
active, a nested opening parenthesis only deepens it (at most one inline
block is active at a time, and it ends at its structurally matching close);
otherwise the block begins when the region starting at the current opening
parenthesis is inline-eligible. -/
def beginIfPossible (lvl : Nat) (cur : Token) (rest : List Token) : Nat :=
  if lvl > 0 then lvl + 1
  else if isInlineBlock 0 0 (cur :: rest) then 1
  else 0

/-- Formatter.formatLineComment: flush the overflow indent, rewrite the
comment into block-comment form and start a new line. -/
def formatLineComment (cfg : Config) (s : FmtState) (t : Token) (q : String) :
    String × FmtState :=
  let s1 := { s with maxCharacterLevel := 0 }
  (addNewline cfg s1 (q ++ lineCommentText t.value), s1)

/-- Formatter.formatBlockComment: start a new line, append the comment
with every internal newline reindented, and start another new line. -/
def formatBlockComment (cfg : Config) (s : FmtState) (t : Token) (q : String) :
    String :=
  addNewline cfg s (addNewline cfg s q ++ indentComment cfg s t.value)

/-- Formatter.checkMaxCharacter: when a maximum is configured and the
current last line plus the incoming value would exceed it, bump the
overflow counter and start a new line. -/
def checkMaxCharacter (cfg : Config) (s : FmtState) (v : String) (q : String) :
    String × FmtState :=
  if cfg.maxCharacterPerLine ≠ 0 ∧
      (lastLine q).length + v.length > cfg.maxCharacterPerLine then
    let s1 := { s with maxCharacterLevel := s.maxCharacterLevel + 1 }
    (addNewline cfg s1 q, s1)
  else (q, s)

/-- Formatter.formatToplevelReservedWord. -/
def formatToplevelReservedWord (cfg : Config) (s : FmtState) (t : Token)
    (q : String) : String × FmtState :=
  let s1 := { s with maxCharacterLevel := 0,
                     newLineWithIndentLevel := s.newLineWithIndentLevel - 1,
                     topLevel := s.topLevel - 1 }
  let q1 := addNewline cfg s1 q
  let s2 := { s1 with topLevel := s1.topLevel + 1 }
  (addNewline cfg s2 (q1 ++ equalizeWhitespace t.value), s2)

/-- The join keywords that drop one newline-with-indent level in
formatNewlineReservedWord. -/
def dropNewLineWithIndentKeywords : List String :=
  ["CROSS APPLY", "CROSS JOIN", "INNER JOIN", "JOIN", "LEFT JOIN",
   "LEFT OUTER JOIN", "OUTER APPLY", "OUTER JOIN", "RIGHT JOIN",
   "RIGHT OUTER JOIN"]

/-- Formatter.formatNewlineReservedWord. -/
def formatNewlineReservedWord (cfg : Config) (s : FmtState) (t : Token)
    (q : String) : String × FmtState :=
  let s1 := { s with maxCharacterLevel := 0 }
  let s2 :=
    if dropNewLineWithIndentKeywords.contains (toUpperAscii t.value) then
      { s1 with newLineWithIndentLevel := s1.newLineWithIndentLevel - 1 }
    else s1
  (addNewline cfg s2 q ++ equalizeWhitespace t.value ++ " ", s2)

/-- Formatter.formatNewlineReservedWordWithIndent. -/
def formatNewlineReservedWordWithIndent (cfg : Config) (s : FmtState)
    (t : Token) (q : String) : String × FmtState :=
  let s1 := { s with maxCharacterLevel := 0,
                     newLineWithIndentLevel := s.newLineWithIndentLevel + 1 }
  (addNewline cfg s1 q ++ equalizeWhitespace t.value ++ " ", s1)

/-- Formatter.formatOpeningParentheses.  The previous token is the one
before the parenthesis in the token array; the lookahead list holds the
tokens after it. -/
def formatOpeningParentheses (cfg : Config) (s : FmtState)
    (prevT : Option Token) (t : Token) (rest : List Token) (q : String) :
    String × FmtState :=
  let s1 := { s with maxCharacterLevel := 0 }
  let q1 :=
    match prevT with
    | some p =>
      if p.type ≠ TokenType.WHITESPACE ∧ p.type ≠ TokenType.OPEN_PAREN then
        trimEnd q
      else q
    | none => q
  let s2 := { s1 with inlineLevel := beginIfPossible s1.inlineLevel t rest }
  if s2.inlineLevel > 0 then (q1 ++ t.value, s2)
  else
    let q2 := addNewline cfg s2 q1 ++ t.value
    let s3 := { s2 with blockLevel := s2.blockLevel + 1 }
    (addNewline cfg s3 q2, s3)

/-- Formatter.formatClosingParentheses. -/
def formatClosingParentheses (cfg : Config) (s : FmtState) (t : Token)
    (q : String) : String × FmtState :=
  if s.inlineLevel > 0 then
    (trimEnd q ++ t.value ++ " ", { s with inlineLevel := s.inlineLevel - 1 })
  else
    let s1 := { s with blockLevel := s.blockLevel - 1 }
    (addNewline cfg s1 q ++ t.value ++ " ", s1)

/-- Formatter.formatPlaceholder: the resolver output plus one space. -/
def formatPlaceholder (cfg : Config) (t : Token) (q : String) : String :=
  q ++ paramsGet cfg.params t.value ++ " "

/-- Formatter.formatComma. -/
def formatComma (cfg : Config) (s : FmtState) (t : Token) (q : String) :
    String × FmtState :=
  let s1 := { s with maxCharacterLevel := 0 }
  if s1.inlineLevel > 0 || limitKeywordTest s1.previousReservedValue then
    (trimEnd q ++ t.value ++ " ", s1)
  else
    let s2 := { s1 with nextLinePrepend := t.value }
    (addNewline cfg s2 (trimEnd q ++ " "), s2)

/-- Formatter.formatWithSpaceAfter. -/
def formatWithSpaceAfter (t : Token) (q : String) : String :=
  trimEnd q ++ t.value ++ " "

/-- Formatter.formatWithoutSpaces. -/
def formatWithoutSpaces (t : Token) (q : String) : String :=
  trimEnd q ++ t.value

/-- Formatter.formatWithSpaces. -/
def formatWithSpaces (t : Token) (q : String) : String :=
  q ++ t.value ++ " "

/-- The pending-prefix splice at the head of the forEach body: when
nextLinePrepend is non-empty and the token is not a comment or whitespace,
the pending text is prepended to the token value (mutating the token) and
nextLinePrepend is cleared. -/
def spliceToken (s : FmtState) (t : Token) : FmtState × Token :=
  if s.nextLinePrepend ≠ "" ∧
      t.type ≠ TokenType.LINE_COMMENT ∧
      t.type ≠ TokenType.BLOCK_COMMENT ∧
      t.type ≠ TokenType.WHITESPACE then
    ({ s with nextLinePrepend := "" },
     { t with value := s.nextLinePrepend ++ t.value })
  else (s, t)

/-- The dispatch chain of getFormattedQueryFromTokens for one (already
spliced) token: first the ten type tests, then the value tests, then the
default branch.  prevT is the preceding token in the array and rest the
tokens after the current one. -/
def dispatchToken (cfg : Config) (prevT : Option Token) (t : Token)
    (rest : List Token) (s : FmtState) (q : String) : String × FmtState :=
  match t.type with
  | TokenType.WHITESPACE => (q, s)
  | TokenType.LINE_COMMENT => formatLineComment cfg s t q
  | TokenType.BLOCK_COMMENT => (formatBlockComment cfg s t q, s)
  | TokenType.RESERVED_TOPLEVEL =>
    let r := formatToplevelReservedWord cfg s t q
    (r.1, { r.2 with previousReservedValue := t.value })
  | TokenType.RESERVED_NEWLINE =>
    let r := formatNewlineReservedWord cfg s t q
    (r.1, { r.2 with previousReservedValue := t.value })
  | TokenType.RESERVED_NEWLINE_WITH_INDENT =>
    let r := formatNewlineReservedWordWithIndent cfg s t q
    (r.1, { r.2 with previousReservedValue := t.value })
  | TokenType.RESERVED =>
    let r := checkMaxCharacter cfg s t.value q
    (formatWithSpaces t r.1, { r.2 with previousReservedValue := t.value })
  | TokenType.OPEN_PAREN => formatOpeningParentheses cfg s prevT t rest q
  | TokenType.CLOSE_PAREN => formatClosingParentheses cfg s t q
  | TokenType.PLACEHOLDER => (formatPlaceholder cfg t q, s)
  | TokenType.OTHER =>
    if t.value = "," then formatComma cfg s t q
    else if t.value = ":" then (formatWithSpaceAfter t q, s)
    else if t.value = "." then (formatWithoutSpaces t q, s)
    else if t.value = ";" then (formatWithoutSpaces t q ++ "\n\n", s)
    else
      let r := checkMaxCharacter cfg s t.value q
      (formatWithSpaces t r.1, r.2)

/-- The outcome of a formatting pass: the output buffer, the final state
and the token array as left behind (the forEach mutates token values in
place when it splices the pending prefix). -/
structure RunResult where
  query : String
  state : FmtState
  tokens : List Token
deriving DecidableEq

/-- The forEach loop of getFormattedQueryFromTokens as a zipper: done
holds the already processed tokens in reverse (so done.head? is the
token at index minus one), the second list the tokens still to process. -/
def runTokens (cfg : Config) : List Token → List Token → FmtState → String →
    RunResult
  | done, [], s, q => ⟨q, s, done.reverse⟩
  | done, t0 :: rest, s, q =>
    let pr := spliceToken s t0
    let st := dispatchToken cfg done.head? pr.2 rest pr.1 q
    runTokens cfg (pr.2 :: done) rest st.2 st.1

/-- Formatter.getFormattedQueryFromTokens, run from an explicit instance
state (the method reads and writes the state stored on this). -/
def getFormattedQueryFromTokens (cfg : Config) (s : FmtState)
    (toks : List Token) : RunResult :=
  runTokens cfg [] toks s ""

/-- Formatter.format up to tokenization: the tokenizer is an external
collaborator, so format is parametrized by the token sequence it returns;
the result is the formatted buffer trimmed at both ends. -/
def format (cfg : Config) (s : FmtState) (toks : List Token) : String :=
  jsTrim (getFormattedQueryFromTokens cfg s toks).query

/-! Specification-side observers used to state the claims. -/

/-- All whitespace characters deleted from a character list. -/
def deWSL (cs : List Char) : List Char := cs.filter (fun c => !jsWS c)

/-- All whitespace characters deleted from a string: the observation under
which the spec's token-fidelity property compares input and output. -/
def deWS (s : String) : String := ⟨deWSL s.data⟩

/-- Space or tab, the characters the spec forbids at the end of a line. -/
def stb (c : Char) : Bool := c = ' ' || c = '\t'

/-- True when no space or tab stands immediately before a newline, i.e.
every non-final line of the text ends without trailing space or tab. -/
def noSpaceTabBeforeNl : List Char → Bool
  | a :: b :: rest => !(stb a && b = '\n') && noSpaceTabBeforeNl (b :: rest)
  | _ => true

/-- True when the text neither starts nor ends with a whitespace
character. -/
def trimmedEnds (cs : List Char) : Bool :=
  match cs.head?, cs.getLast? with
  | some a, some b => !jsWS a && !jsWS b
  | _, _ => true

/-- Whether the first list stands at the head of the second. -/
def startsWithL : List Char → List Char → Bool
  | [], _ => true
  | _ :: _, [] => false
  | p :: ps, c :: cs => p = c && startsWithL ps cs

/-- Whether the first list occurs contiguously inside the second. -/
def containsSeq (pat : List Char) : List Char → Bool
  | [] => startsWithL pat []
  | c :: cs => startsWithL pat (c :: cs) || containsSeq pat cs

/-- Specification-side content projection of one token, following the
spec's token-fidelity wording: a whitespace token contributes nothing; a
line comment contributes its block-comment rewrite; a placeholder
contributes the resolver output; a comma outside inline mode and a LIMIT
clause contributes nothing now and defers itself through the pending
prefix; every other token contributes its value.  Only the pending
prefix, the inline level and the previous reserved keyword are tracked,
since layout state does not influence content. -/
def contentStep (cfg : Config) (s : FmtState) (t : Token)
    (rest : List Token) : String × FmtState :=
  match t.type with
  | TokenType.WHITESPACE => ("", s)
  | TokenType.LINE_COMMENT => (lineCommentText t.value, s)
  | TokenType.BLOCK_COMMENT => (t.value, s)
  | TokenType.RESERVED_TOPLEVEL =>
    (t.value, { s with previousReservedValue := t.value })
  | TokenType.RESERVED_NEWLINE =>
    (t.value, { s with previousReservedValue := t.value })
  | TokenType.RESERVED_NEWLINE_WITH_INDENT =>
    (t.value, { s with previousReservedValue := t.value })
  | TokenType.RESERVED =>
    (t.value, { s with previousReservedValue := t.value })
  | TokenType.OPEN_PAREN =>
    (t.value, { s with inlineLevel := beginIfPossible s.inlineLevel t rest })
  | TokenType.CLOSE_PAREN =>
    (t.value, { s with inlineLevel := s.inlineLevel - 1 })
  | TokenType.PLACEHOLDER => (paramsGet cfg.params t.value, s)
  | TokenType.OTHER =>
    if t.value = "," then
      if s.inlineLevel > 0 || limitKeywordTest s.previousReservedValue then
        (t.value, s)
      else ("", { s with nextLinePrepend := t.value })
    else (t.value, s)

/-- Specification-side content sequence of a token stream: the in-order
concatenation of each token's content contribution, with the pending
prefix threaded exactly as the engine threads it (spliced onto the next
token that is not whitespace or a comment, dropped when no such token
follows). -/
def contentRun (cfg : Config) : List Token → FmtState → String
  | [], _ => ""
  | t0 :: rest, s =>
    let pr := spliceToken s t0
    let e := contentStep cfg pr.1 pr.2 rest
    e.1 ++ contentRun cfg rest e.2

/-! Auxiliary lemmas about the string primitives. -/

theorem dropWhile_idem (p : Char → Bool) (l : List Char) :
    (l.dropWhile p).dropWhile p = l.dropWhile p := by
  induction l with
  | nil => rfl
  | cons c r ih =>
    by_cases h : p c = true <;> simp [List.dropWhile_cons, h, ih]

theorem dropWhile_append_all (p : Char → Bool) (a b : List Char)
    (h : ∀ c ∈ a, p c = true) : (a ++ b).dropWhile p = b.dropWhile p := by
  induction a with
  | nil => rfl
  | cons c r ih =>
    simp only [List.cons_append, List.dropWhile_cons,
      h c (List.mem_cons_self c r), if_true]
    exact ih fun c hc => h c (List.mem_cons_of_mem _ hc)

theorem trimEndL_decomp (cs : List Char) :
    cs = trimEndL cs ++ (cs.reverse.takeWhile jsWS).reverse := by
  unfold trimEndL
  conv_lhs =>
    rw [← cs.reverse_reverse, ← List.takeWhile_append_dropWhile jsWS cs.reverse,
      List.reverse_append]

theorem mem_trimEnd_dropped (cs : List Char) :
    ∀ c ∈ (cs.reverse.takeWhile jsWS).reverse, jsWS c = true := by
  intro c hc
  rw [List.mem_reverse] at hc
  exact List.mem_takeWhile_imp hc

theorem trimEndL_getLast (cs : List Char) :
    ∀ x, (trimEndL cs).getLast? = some x → jsWS x = false := by
  intro x hx
  unfold trimEndL at hx
  rw [List.getLast?_reverse] at hx
  have h := List.head?_dropWhile_not jsWS cs.reverse
  rw [hx] at h
  exact h

theorem trimStartL_head (cs : List Char) :
    ∀ x, (trimStartL cs).head? = some x → jsWS x = false := by
  intro x hx
  unfold trimStartL at hx
  have h := List.head?_dropWhile_not jsWS cs
  rw [hx] at h
  exact h

theorem trimEndL_idem (cs : List Char) : trimEndL (trimEndL cs) = trimEndL cs := by
  unfold trimEndL
  rw [List.reverse_reverse, dropWhile_idem]

theorem trimEndL_append_ws (cs ws : List Char) (h : ∀ c ∈ ws, jsWS c = true) :
    trimEndL (cs ++ ws) = trimEndL cs := by
  unfold trimEndL
  rw [List.reverse_append, dropWhile_append_all]
  intro c hc
  exact h c (List.mem_reverse.mp hc)

theorem trimEnd_data (s : String) : (trimEnd s).data = trimEndL s.data := rfl

theorem trimEnd_append_space (q : String) : trimEnd (trimEnd q ++ " ") = trimEnd q := by
  apply String.ext
  rw [trimEnd_data, trimEnd_data, String.data_append, trimEnd_data]
  rw [trimEndL_append_ws _ _ (by intro c hc; simp at hc; simp [hc, jsWS])]
  exact trimEndL_idem q.data

/-! Claim theorems. -/

/-- C2: a reserved top-level keyword token resets the overflow counter,
decrements the newline-with-indent and toplevel counters by one each
(saturating at zero), starts a new line at the decremented indent,
increments the toplevel counter by one, appends the keyword with every
internal whitespace run collapsed to a single space, and starts another
new line one level deeper — so every top-level clause keyword sits at the
same toplevel indent and its body is indented one level deeper. -/
theorem toplevel_reserved_spec (cfg : Config) (s : FmtState) (t : Token)
    (q : String) :
    formatToplevelReservedWord cfg s t q =
      (trimEnd (trimEnd q ++ "\n" ++
          String.mk (List.replicate
            ((s.topLevel - 1) + s.blockLevel + (s.newLineWithIndentLevel - 1) + 0)
            cfg.indent.data).flatten ++ equalizeWhitespace t.value) ++ "\n" ++
        String.mk (List.replicate
          ((s.topLevel - 1 + 1) + s.blockLevel + (s.newLineWithIndentLevel - 1) + 0)
          cfg.indent.data).flatten,
       ⟨s.topLevel - 1 + 1, s.blockLevel, s.newLineWithIndentLevel - 1, 0,
        s.inlineLevel, s.previousReservedValue, s.nextLinePrepend⟩) := rfl

/-- C9: the maximum-line-length check, applied before other-reserved and
default tokens, bumps the overflow counter by one and starts a new line
exactly when a maximum is configured (non-zero) and the current last line
of the buffer plus the incoming raw value would exceed it; with the
maximum set to zero, or when the line still fits, it changes neither the
buffer nor any counter. -/
theorem check_max_character_spec (cfg : Config) (s : FmtState) (v : String)
    (q : String) :
    checkMaxCharacter cfg s v q =
      if cfg.maxCharacterPerLine ≠ 0 ∧
          (lastLine q).length + v.length > cfg.maxCharacterPerLine then
        (trimEnd q ++ "\n" ++
           String.mk (List.replicate
             (s.topLevel + s.blockLevel + s.newLineWithIndentLevel +
               (s.maxCharacterLevel + 1)) cfg.indent.data).flatten,
         ⟨s.topLevel, s.blockLevel, s.newLineWithIndentLevel,
          s.maxCharacterLevel + 1, s.inlineLevel, s.previousReservedValue,
          s.nextLinePrepend⟩)
      else (q, s) := by
  unfold checkMaxCharacter
  split <;> rfl

/-- C1 counterexample: a line comment is a non-whitespace, non-placeholder
token, yet its value does not appear verbatim in the output: the two
dashes are rewritten into a block comment delimiter pair. -/
theorem line_comment_rewrite_cx :
    format ⟨"  ", 0, []⟩ initialState [⟨TokenType.LINE_COMMENT, "-- x\n"⟩] =
      "/* x */" ∧
    containsSeq ("-- x").data
      (format ⟨"  ", 0, []⟩ initialState
        [⟨TokenType.LINE_COMMENT, "-- x\n"⟩]).data = false := by
  constructor <;> rfl

/-- C3 counterexample: a comma token that immediately follows a deferred
comma consumes the pending prefix, so its value becomes two commas and it
is emitted inline by the default rule — neither branch the claim states
for comma tokens runs (no new line is started, the pending prefix stays
empty rather than being set to a comma). -/
theorem comma_after_comma_cx :
    (getFormattedQueryFromTokens ⟨"  ", 0, []⟩ initialState
      [⟨TokenType.OTHER, "a"⟩, ⟨TokenType.OTHER, ","⟩,
       ⟨TokenType.OTHER, ","⟩]).query = "a\n,, " ∧
    (getFormattedQueryFromTokens ⟨"  ", 0, []⟩ initialState
      [⟨TokenType.OTHER, "a"⟩, ⟨TokenType.OTHER, ","⟩,
       ⟨TokenType.OTHER, ","⟩]).state.nextLinePrepend = "" := by
  constructor <;> rfl

/-- C5 counterexample: a multi-line block comment whose first line ends
with a space is emitted by indentComment with that trailing space kept, so
the output has a line ending in a space character. -/
theorem block_comment_trailing_ws_cx :
    format ⟨"  ", 0, []⟩ initialState
      [⟨TokenType.BLOCK_COMMENT, "/* a \nb */"⟩] = "/* a \nb */" ∧
    noSpaceTabBeforeNl
      (format ⟨"  ", 0, []⟩ initialState
        [⟨TokenType.BLOCK_COMMENT, "/* a \nb */"⟩]).data = false := by
  constructor <;> rfl

/-- C6 counterexample: the forEach loop writes the pending comma into
token.value of the next content token, so after the call the token
sequence is not the one that was passed in. -/
theorem tokens_mutated_cx :
    (getFormattedQueryFromTokens ⟨"  ", 0, []⟩ initialState
      [⟨TokenType.OTHER, "a"⟩, ⟨TokenType.OTHER, ","⟩,
       ⟨TokenType.OTHER, "b"⟩]).tokens ≠
      [⟨TokenType.OTHER, "a"⟩, ⟨TokenType.OTHER, ","⟩,
       ⟨TokenType.OTHER, "b"⟩] := by
  decide

/-- C7 counterexample: format does not reset the instance state, so a
query whose formatting leaves a pending comma makes the next format call
on the same instance differ from a freshly constructed formatter. -/
theorem stale_state_cx :
    format ⟨"  ", 0, []⟩
      ((getFormattedQueryFromTokens ⟨"  ", 0, []⟩ initialState
        [⟨TokenType.OTHER, "a"⟩, ⟨TokenType.OTHER, ","⟩]).state)
      [⟨TokenType.OTHER, "b"⟩] ≠
    format ⟨"  ", 0, []⟩ initialState [⟨TokenType.OTHER, "b"⟩] := by
  decide

/-- Dispatch leaves nextLinePrepend unchanged for every token whose value
is not a single comma (only formatComma writes it). -/
theorem dispatch_nextLinePrepend (cfg : Config) (p : Option Token) (t : Token)
    (rest : List Token) (s : FmtState) (q : String) (h : t.value ≠ ",") :
    (dispatchToken cfg p t rest s q).2.nextLinePrepend = s.nextLinePrepend := by
  obtain ⟨ty, v⟩ := t
  cases ty <;>
    simp only [dispatchToken, formatLineComment, formatBlockComment,
      formatToplevelReservedWord, formatNewlineReservedWord,
      formatNewlineReservedWordWithIndent, checkMaxCharacter,
      formatOpeningParentheses, formatClosingParentheses, formatPlaceholder,
      formatComma, formatWithSpaceAfter, formatWithoutSpaces,
      formatWithSpaces] <;>
    split_ifs <;> simp_all

/-- C3 (amended): a token whose value is a single comma at dispatch time,
i.e. with no pending prefix spliced into it, follows the two comma
branches: with the inline block active or the most recent reserved
keyword matching LIMIT case-insensitively, the buffer is trimmed of
trailing whitespace and a comma plus one space is appended on the same
line (and the overflow counter reset); otherwise the buffer is trimmed,
the pending prefix is set to the comma and a new line is started, giving
the leading-comma style.  A comma token that consumes a pending prefix is
instead emitted by the default rule (see the counterexample). -/
theorem comma_rule_spec (cfg : Config) (prevT : Option Token) (t : Token)
    (rest : List Token) (s : FmtState) (q : String)
    (ht : t.type = TokenType.OTHER) (hv : t.value = ",") :
    dispatchToken cfg prevT t rest s q =
      if s.inlineLevel > 0 || limitKeywordTest s.previousReservedValue then
        (trimEnd q ++ "," ++ " ",
         ⟨s.topLevel, s.blockLevel, s.newLineWithIndentLevel, 0,
          s.inlineLevel, s.previousReservedValue, s.nextLinePrepend⟩)
      else
        (trimEnd q ++ "\n" ++
           String.mk (List.replicate
             (s.topLevel + s.blockLevel + s.newLineWithIndentLevel + 0)
             cfg.indent.data).flatten,
         ⟨s.topLevel, s.blockLevel, s.newLineWithIndentLevel, 0,
          s.inlineLevel, s.previousReservedValue, ","⟩) := by
  obtain ⟨ty, v⟩ := t
  obtain rfl : ty = TokenType.OTHER := ht
  obtain rfl : v = "," := hv
  show formatComma cfg s ⟨TokenType.OTHER, ","⟩ q = _
  unfold formatComma
  dsimp only
  by_cases hc : (decide (s.inlineLevel > 0) ||
      limitKeywordTest s.previousReservedValue) = true
  · rw [if_pos hc, if_pos hc]
  · rw [if_neg hc, if_neg hc]
    unfold addNewline
    rw [trimEnd_append_space]
    rfl

/-- C3 witness: a comma right after the LIMIT keyword stays on the same
line, exercising the LIMIT branch of the comma rule. -/
theorem comma_rule_spec_witness :
    dispatchToken ⟨"  ", 0, []⟩ none ⟨TokenType.OTHER, ","⟩ []
      ⟨0, 0, 0, 0, 0, "LIMIT", ""⟩ "LIMIT 10 " =
      ("LIMIT 10, ", ⟨0, 0, 0, 0, 0, "LIMIT", ""⟩) := by
  rw [comma_rule_spec ⟨"  ", 0, []⟩ none ⟨TokenType.OTHER, ","⟩ []
    ⟨0, 0, 0, 0, 0, "LIMIT", ""⟩ "LIMIT 10 " rfl rfl]
  rfl

/-- C4: whenever nextLinePrepend is non-empty and the next token is not
whitespace or a comment, the engine behaves exactly as if that token had
arrived with the pending text prepended to its value and the pending
buffer empty; the token record afterwards carries the prefixed value, the
pending buffer is left cleared by the dispatch (the prefixed value being
a lone comma is excluded, as only it can re-arm the prefix), and for a
placeholder token whose prefixed value has no binding the pending text
appears in the output immediately before the token text. -/
theorem pending_splice_spec (cfg : Config) (done : List Token) (t0 : Token)
    (rest : List Token) (s : FmtState) (q : String)
    (h1 : s.nextLinePrepend ≠ "")
    (h2 : t0.type ≠ TokenType.LINE_COMMENT)
    (h3 : t0.type ≠ TokenType.BLOCK_COMMENT)
    (h4 : t0.type ≠ TokenType.WHITESPACE)
    (h5 : s.nextLinePrepend ++ t0.value ≠ ",") :
    runTokens cfg done (t0 :: rest) s q =
      runTokens cfg done
        ({ t0 with value := s.nextLinePrepend ++ t0.value } :: rest)
        { s with nextLinePrepend := "" } q ∧
    (dispatchToken cfg done.head?
        { t0 with value := s.nextLinePrepend ++ t0.value } rest
        { s with nextLinePrepend := "" } q).2.nextLinePrepend = "" ∧
    (t0.type = TokenType.PLACEHOLDER →
      lookupValue cfg.params (s.nextLinePrepend ++ t0.value) = none →
      (dispatchToken cfg done.head?
          { t0 with value := s.nextLinePrepend ++ t0.value } rest
          { s with nextLinePrepend := "" } q).1 =
        q ++ s.nextLinePrepend ++ t0.value ++ " ") := by
  have hs : spliceToken s t0 =
      ({ s with nextLinePrepend := "" },
       { t0 with value := s.nextLinePrepend ++ t0.value }) := by
    unfold spliceToken
    rw [if_pos ⟨h1, h2, h3, h4⟩]
  have hs2 : spliceToken { s with nextLinePrepend := "" }
      { t0 with value := s.nextLinePrepend ++ t0.value } =
      ({ s with nextLinePrepend := "" },
       { t0 with value := s.nextLinePrepend ++ t0.value }) := by
    unfold spliceToken
    rw [if_neg (by simp)]
  refine ⟨?_, ?_, ?_⟩
  · simp only [runTokens, hs, hs2]
  · exact dispatch_nextLinePrepend cfg done.head? _ rest _ q h5
  · intro hp hl
    obtain ⟨ty, v⟩ := t0
    obtain rfl : ty = TokenType.PLACEHOLDER := hp
    show formatPlaceholder cfg _ q = _
    unfold formatPlaceholder paramsGet
    rw [hl]
    apply String.ext
    simp [String.data_append, List.append_assoc]

/-- C4 witness: a pending comma spliced onto a placeholder token. -/
theorem pending_splice_spec_witness :
    runTokens (⟨"  ", 0, [("?", "1")]⟩ : Config) []
        [⟨TokenType.PLACEHOLDER, "?"⟩] (⟨0, 0, 0, 0, 0, "", ","⟩ : FmtState)
        "a" =
      runTokens ⟨"  ", 0, [("?", "1")]⟩ []
        [⟨TokenType.PLACEHOLDER, ",?"⟩] ⟨0, 0, 0, 0, 0, "", ""⟩ "a" ∧
    (dispatchToken ⟨"  ", 0, [("?", "1")]⟩ none ⟨TokenType.PLACEHOLDER, ",?"⟩
        [] ⟨0, 0, 0, 0, 0, "", ""⟩ "a").2.nextLinePrepend = "" ∧
    ((⟨TokenType.PLACEHOLDER, "?"⟩ : Token).type = TokenType.PLACEHOLDER →
      lookupValue [("?", "1")] ",?" = none →
      (dispatchToken ⟨"  ", 0, [("?", "1")]⟩ none ⟨TokenType.PLACEHOLDER, ",?"⟩
          [] ⟨0, 0, 0, 0, 0, "", ""⟩ "a").1 = "a" ++ "," ++ "?" ++ " ") := by
  exact pending_splice_spec ⟨"  ", 0, [("?", "1")]⟩ []
    ⟨TokenType.PLACEHOLDER, "?"⟩ [] ⟨0, 0, 0, 0, 0, "", ","⟩ "a"
    (by decide) (by decide) (by decide) (by decide) (by decide)

/-- C8 (amended): a semicolon token is emitted with no leading space and
followed by two newlines, and the blank line persists into the output
exactly when the following content token is one that does not itself
start by trimming the buffer and opening a new line: for a default token
(identifier, literal, plain punctuation) with the overflow feature off,
the next text is appended right after the blank line.  Tokens that begin
with addNewline (top-level and newline keywords, parentheses in multiline
mode, commas, colons, periods) trim the blank line away (see the
counterexample). -/
theorem semicolon_rule_spec (cfg : Config) (done : List Token) (t1 t2 : Token)
    (rest : List Token) (s : FmtState) (q : String)
    (h1 : t1.type = TokenType.OTHER) (h2 : t1.value = ";")
    (h3 : t2.type = TokenType.OTHER)
    (h4 : t2.value ≠ ",") (h5 : t2.value ≠ ":") (h6 : t2.value ≠ ".")
    (h7 : t2.value ≠ ";") (h8 : cfg.maxCharacterPerLine = 0)
    (h9 : s.nextLinePrepend = "") :
    dispatchToken cfg done.head? t1 (t2 :: rest) s q =
      (trimEnd q ++ ";" ++ "\n\n", s) ∧
    runTokens cfg done (t1 :: t2 :: rest) s q =
      runTokens cfg (t2 :: t1 :: done) rest s
        (trimEnd q ++ ";" ++ "\n\n" ++ t2.value ++ " ") := by
  obtain ⟨ty1, v1⟩ := t1
  obtain rfl : ty1 = TokenType.OTHER := h1
  obtain rfl : v1 = ";" := h2
  obtain ⟨ty2, v2⟩ := t2
  obtain rfl : ty2 = TokenType.OTHER := h3
  have hd1 : dispatchToken cfg done.head? ⟨TokenType.OTHER, ";"⟩
      (⟨TokenType.OTHER, v2⟩ :: rest) s q = (trimEnd q ++ ";" ++ "\n\n", s) := by
    show (formatWithoutSpaces _ q ++ "\n\n", s) = _
    rfl
  refine ⟨hd1, ?_⟩
  have hnos : ¬ s.nextLinePrepend ≠ "" := by simp [h9]
  have hs1 : spliceToken s (⟨TokenType.OTHER, ";"⟩ : Token) =
      (s, ⟨TokenType.OTHER, ";"⟩) := by
    unfold spliceToken
    rw [if_neg (by simp [h9])]
  have hs2 : spliceToken s (⟨TokenType.OTHER, v2⟩ : Token) =
      (s, ⟨TokenType.OTHER, v2⟩) := by
    unfold spliceToken
    rw [if_neg (by simp [h9])]
  have hd2 : dispatchToken cfg (some (⟨TokenType.OTHER, ";"⟩ : Token))
      ⟨TokenType.OTHER, v2⟩ rest s (trimEnd q ++ ";" ++ "\n\n") =
      (trimEnd q ++ ";" ++ "\n\n" ++ v2 ++ " ", s) := by
    show (if v2 = "," then _ else _) = _
    rw [if_neg h4, if_neg h5, if_neg h6, if_neg h7]
    show (formatWithSpaces _ (checkMaxCharacter cfg s v2 _).1,
      (checkMaxCharacter cfg s v2 _).2) = _
    unfold checkMaxCharacter
    rw [if_neg (by simp [h8])]
    rfl
  simp only [runTokens, hs1, hd1, hs2, hd2, List.head?_cons]

/-- C8 witness: a semicolon followed by an identifier keeps the blank
statement separator line. -/
theorem semicolon_rule_spec_witness :
    dispatchToken ⟨"  ", 0, []⟩ none ⟨TokenType.OTHER, ";"⟩
        [⟨TokenType.OTHER, "b"⟩] initialState "a " =
      (trimEnd "a " ++ ";" ++ "\n\n", initialState) ∧
    runTokens ⟨"  ", 0, []⟩ []
        [⟨TokenType.OTHER, ";"⟩, ⟨TokenType.OTHER, "b"⟩] initialState "a " =
      runTokens ⟨"  ", 0, []⟩
        [⟨TokenType.OTHER, "b"⟩, ⟨TokenType.OTHER, ";"⟩] [] initialState
        (trimEnd "a " ++ ";" ++ "\n\n" ++ "b" ++ " ") := by
  exact semicolon_rule_spec ⟨"  ", 0, []⟩ [] ⟨TokenType.OTHER, ";"⟩
    ⟨TokenType.OTHER, "b"⟩ [] initialState "a " rfl rfl rfl
    (by decide) (by decide) (by decide) (by decide) rfl rfl

/-- After any dispatch, nextLinePrepend is either what it was before or a
single comma (formatComma is the only writer, and it is guarded by the
token value being a comma). -/
theorem dispatch_prepend_cases (cfg : Config) (p : Option Token) (t : Token)
    (rest : List Token) (s : FmtState) (q : String) :
    (dispatchToken cfg p t rest s q).2.nextLinePrepend = s.nextLinePrepend ∨
    (dispatchToken cfg p t rest s q).2.nextLinePrepend = "," := by
  obtain ⟨ty, v⟩ := t
  cases ty <;>
    simp only [dispatchToken, formatLineComment, formatBlockComment,
      formatToplevelReservedWord, formatNewlineReservedWord,
      formatNewlineReservedWordWithIndent, checkMaxCharacter,
      formatOpeningParentheses, formatClosingParentheses, formatPlaceholder,
      formatComma, formatWithSpaceAfter, formatWithoutSpaces,
      formatWithSpaces] <;>
    (try split_ifs) <;>
    simp_all

/-- The pending-prefix splice keeps the token type, either keeps the value
or prepends a comma to it (under the reachable prefix values), and leaves
the pending buffer empty or a comma. -/
theorem spliceToken_rel (s : FmtState) (t0 : Token)
    (hp : s.nextLinePrepend = "" ∨ s.nextLinePrepend = ",") :
    ((spliceToken s t0).2.type = t0.type ∧
      ((spliceToken s t0).2.value = t0.value ∨
        (spliceToken s t0).2.value = "," ++ t0.value)) ∧
    ((spliceToken s t0).1.nextLinePrepend = "" ∨
      (spliceToken s t0).1.nextLinePrepend = ",") := by
  unfold spliceToken
  rcases hp with hp | hp <;> rw [hp] <;> split_ifs <;> simp_all

/-- Running the loop only appends to the processed prefix and relates each
remaining token to its original: same type, and the value either unchanged
or with one comma prepended by the splice. -/
theorem runTokens_tokens_rel (cfg : Config) :
    ∀ (rest done : List Token) (s : FmtState) (q : String),
    (s.nextLinePrepend = "" ∨ s.nextLinePrepend = ",") →
    ∃ suf, (runTokens cfg done rest s q).tokens = done.reverse ++ suf ∧
      List.Forall₂ (fun t1 t0 => t1.type = t0.type ∧
        (t1.value = t0.value ∨ t1.value = "," ++ t0.value)) suf rest := by
  intro rest
  induction rest with
  | nil =>
    intro done s q hp
    exact ⟨[], by simp [runTokens], List.Forall₂.nil⟩
  | cons t0 rest ih =>
    intro done s q hp
    obtain ⟨hrel, hp1⟩ := spliceToken_rel s t0 hp
    have hp2 : ((dispatchToken cfg done.head? (spliceToken s t0).2 rest
        (spliceToken s t0).1 q).2.nextLinePrepend = "" ∨
        (dispatchToken cfg done.head? (spliceToken s t0).2 rest
        (spliceToken s t0).1 q).2.nextLinePrepend = ",") := by
      rcases dispatch_prepend_cases cfg done.head? (spliceToken s t0).2 rest
        (spliceToken s t0).1 q with h | h
      · rw [h]; exact hp1
      · exact Or.inr h
    obtain ⟨suf, hsuf, hfor⟩ := ih ((spliceToken s t0).2 :: done) _ _ hp2
    refine ⟨(spliceToken s t0).2 :: suf, ?_, List.Forall₂.cons hrel hfor⟩
    show (runTokens cfg ((spliceToken s t0).2 :: done) rest _ _).tokens = _
    rw [hsuf, List.reverse_cons, List.append_assoc]
    rfl

/-- C6 (amended): getFormattedQueryFromTokens does not consume the token
sequence read-only: the sequence it leaves behind has the same length and
types, and each token keeps its original value except that a token which
consumed the pending prefix has one comma prepended to its value (see the
counterexample for an actual mutation). -/
theorem tokens_readonly_spec (cfg : Config) (toks : List Token) :
    List.Forall₂ (fun t1 t0 => t1.type = t0.type ∧
      (t1.value = t0.value ∨ t1.value = "," ++ t0.value))
      (getFormattedQueryFromTokens cfg initialState toks).tokens toks := by
  obtain ⟨suf, hsuf, hrel⟩ :=
    runTokens_tokens_rel cfg toks [] initialState "" (Or.inl rfl)
  unfold getFormattedQueryFromTokens
  rw [hsuf]
  simpa using hrel

/-- Two formatter states that agree on every component except the stored
previous reserved keyword, provided that keyword matches LIMIT in neither
or both, are indistinguishable to the engine. -/
def limitRel (s1 s2 : FmtState) : Prop :=
  s1.topLevel = s2.topLevel ∧ s1.blockLevel = s2.blockLevel ∧
  s1.newLineWithIndentLevel = s2.newLineWithIndentLevel ∧
  s1.maxCharacterLevel = s2.maxCharacterLevel ∧
  s1.inlineLevel = s2.inlineLevel ∧
  s1.nextLinePrepend = s2.nextLinePrepend ∧
  limitKeywordTest s1.previousReservedValue =
    limitKeywordTest s2.previousReservedValue

/-- Dispatch is a congruence for limitRel: related states produce the same
output text and related successor states. -/
theorem dispatch_limitRel (cfg : Config) (p : Option Token) (t : Token)
    (rest : List Token) (q : String) (s1 s2 : FmtState) (h : limitRel s1 s2) :
    (dispatchToken cfg p t rest s1 q).1 = (dispatchToken cfg p t rest s2 q).1 ∧
    limitRel (dispatchToken cfg p t rest s1 q).2
      (dispatchToken cfg p t rest s2 q).2 := by
  obtain ⟨a, b, c, d, e, p1, n⟩ := s1
  obtain ⟨a2, b2, c2, d2, e2, p2, n2⟩ := s2
  unfold limitRel at h
  dsimp only at h
  obtain ⟨ha, hb, hc, hd, he, hn, hl⟩ := h
  subst ha hb hc hd he hn
  obtain ⟨ty, v⟩ := t
  unfold limitRel
  cases ty <;>
    simp_all [dispatchToken, formatLineComment, formatBlockComment,
      formatToplevelReservedWord, formatNewlineReservedWord,
      formatNewlineReservedWordWithIndent, checkMaxCharacter,
      formatOpeningParentheses, formatClosingParentheses, formatPlaceholder,
      formatComma, formatWithSpaceAfter, formatWithoutSpaces,
      formatWithSpaces, addNewline, getIndent, indentComment] <;>
    (try split_ifs) <;>
    simp_all

/-- The whole loop is a congruence for limitRel. -/
theorem runTokens_limitRel (cfg : Config) :
    ∀ (rest done : List Token) (q : String) (s1 s2 : FmtState),
    limitRel s1 s2 →
    (runTokens cfg done rest s1 q).query = (runTokens cfg done rest s2 q).query ∧
    (runTokens cfg done rest s1 q).tokens =
      (runTokens cfg done rest s2 q).tokens := by
  intro rest
  induction rest with
  | nil => intro done q s1 s2 h; exact ⟨rfl, rfl⟩
  | cons t0 rest ih =>
    intro done q s1 s2 h
    have hn : s1.nextLinePrepend = s2.nextLinePrepend := h.2.2.2.2.2.1
    have hsp : (spliceToken s1 t0).2 = (spliceToken s2 t0).2 ∧
        limitRel (spliceToken s1 t0).1 (spliceToken s2 t0).1 := by
      unfold spliceToken
      rw [hn]
      split_ifs
      · refine ⟨rfl, ?_⟩
        unfold limitRel at h ⊢
        simp_all
      · exact ⟨rfl, h⟩
    obtain ⟨hd1, hd2⟩ := dispatch_limitRel cfg done.head? (spliceToken s1 t0).2
      rest q (spliceToken s1 t0).1 (spliceToken s2 t0).1 hsp.2
    show (runTokens cfg ((spliceToken s1 t0).2 :: done) rest _ _).query = _ ∧
      (runTokens cfg ((spliceToken s1 t0).2 :: done) rest _ _).tokens = _
    rw [hsp.1] at hd1 hd2 ⊢
    rw [hd1]
    exact ih _ _ _ _ hd2

/-- C7 (amended): format does not reset the instance state, so a repeat
call matches a freshly constructed formatter exactly when the residual
state is observably fresh: all four indentation counters zero, no active
inline block, an empty pending prefix, and a remembered previous keyword
that does not match LIMIT (the only way the engine can observe it).  The
counterexample shows a run whose residue breaks this. -/
theorem fresh_state_spec (cfg : Config) (toks : List Token) (s : FmtState)
    (h1 : s.topLevel = 0) (h2 : s.blockLevel = 0)
    (h3 : s.newLineWithIndentLevel = 0) (h4 : s.maxCharacterLevel = 0)
    (h5 : s.inlineLevel = 0) (h6 : s.nextLinePrepend = "")
    (h7 : limitKeywordTest s.previousReservedValue = false) :
    format cfg s toks = format cfg initialState toks := by
  have h : limitRel s initialState := by
    refine ⟨h1, h2, h3, h4, h5, h6, ?_⟩
    rw [h7]
    rfl
  unfold format getFormattedQueryFromTokens
  rw [(runTokens_limitRel cfg toks [] "" s initialState h).1]

/-- C7 witness: a clean residual state with a non-LIMIT previous keyword
formats like a fresh instance. -/
theorem fresh_state_spec_witness :
    format ⟨"  ", 0, []⟩ ⟨0, 0, 0, 0, 0, "FROM", ""⟩ [⟨TokenType.OTHER, "a"⟩] =
      format ⟨"  ", 0, []⟩ initialState [⟨TokenType.OTHER, "a"⟩] :=
  fresh_state_spec ⟨"  ", 0, []⟩ [⟨TokenType.OTHER, "a"⟩]
    ⟨0, 0, 0, 0, 0, "FROM", ""⟩ rfl rfl rfl rfl rfl rfl (by decide)

/-! Whitespace-erasure lemmas for the token-fidelity claim. -/

theorem deWSL_append (a b : List Char) : deWSL (a ++ b) = deWSL a ++ deWSL b :=
  List.filter_append a b

theorem deWSL_all_ws (cs : List Char) (h : ∀ c ∈ cs, jsWS c = true) :
    deWSL cs = [] := by
  unfold deWSL
  rw [List.filter_eq_nil_iff]
  intro a ha
  simp [h a ha]

theorem deWSL_trimEndL (cs : List Char) : deWSL (trimEndL cs) = deWSL cs := by
  conv_rhs => rw [trimEndL_decomp cs]
  rw [deWSL_append, deWSL_all_ws _ (mem_trimEnd_dropped cs), List.append_nil]

theorem deWSL_trimStartL (cs : List Char) : deWSL (trimStartL cs) = deWSL cs := by
  conv_rhs => rw [← List.takeWhile_append_dropWhile jsWS cs]
  rw [deWSL_append,
    deWSL_all_ws (cs.takeWhile jsWS) (fun c hc => List.mem_takeWhile_imp hc)]
  rfl

theorem deWS_append (s t : String) : deWS (s ++ t) = deWS s ++ deWS t := by
  apply String.ext
  show deWSL (s ++ t).data = deWSL s.data ++ deWSL t.data
  rw [String.data_append]
  exact deWSL_append _ _

theorem deWS_trimEnd (s : String) : deWS (trimEnd s) = deWS s :=
  String.ext (deWSL_trimEndL s.data)

theorem deWS_jsTrim (s : String) : deWS (jsTrim s) = deWS s := by
  apply String.ext
  show deWSL (trimEndL (trimStartL s.data)) = deWSL s.data
  rw [deWSL_trimEndL, deWSL_trimStartL]

theorem getIndent_all_ws (cfg : Config) (s : FmtState)
    (hind : ∀ c ∈ cfg.indent.data, jsWS c = true) :
    ∀ c ∈ (getIndent cfg s).data, jsWS c = true := by
  intro c hc
  unfold getIndent at hc
  rw [show (String.mk (List.replicate
      (s.topLevel + s.blockLevel + s.newLineWithIndentLevel + s.maxCharacterLevel)
      cfg.indent.data).flatten).data = (List.replicate
      (s.topLevel + s.blockLevel + s.newLineWithIndentLevel + s.maxCharacterLevel)
      cfg.indent.data).flatten from rfl, List.mem_flatten] at hc
  obtain ⟨l, hl, hcl⟩ := hc
  rw [List.mem_replicate] at hl
  exact hind c (hl.2 ▸ hcl)

theorem deWSL_cons (c : Char) (l : List Char) :
    deWSL (c :: l) = if jsWS c = true then deWSL l else c :: deWSL l := by
  unfold deWSL
  rw [List.filter_cons]
  by_cases h : jsWS c = true <;> simp [h]

theorem deWS_addNewline (cfg : Config) (s : FmtState) (q : String)
    (hind : ∀ c ∈ cfg.indent.data, jsWS c = true) :
    deWS (addNewline cfg s q) = deWS q := by
  apply String.ext
  show deWSL (addNewline cfg s q).data = deWSL q.data
  unfold addNewline
  rw [String.data_append, String.data_append, deWSL_append, deWSL_append,
    trimEnd_data, deWSL_trimEndL,
    deWSL_all_ws (getIndent cfg s).data (getIndent_all_ws cfg s hind),
    show deWSL ("\n" : String).data = [] from rfl]
  simp

theorem deWS_empty_str : deWS "" = "" := rfl

theorem deWS_space_str : deWS " " = "" := rfl

theorem deWS_nl_str : deWS "\n" = "" := rfl

theorem deWS_nlnl_str : deWS "\n\n" = "" := rfl

theorem append_empty_str (s : String) : s ++ "" = s := by
  apply String.ext
  rw [String.data_append]
  exact List.append_nil _

theorem deWSL_equalize (cs : List Char) :
    ∀ b, deWSL (equalizeWSAux b cs) = deWSL cs := by
  induction cs with
  | nil => intro b; rfl
  | cons c r ih =>
    intro b
    by_cases h : jsWS c = true
    · cases b <;>
        simp [equalizeWSAux, h, deWSL_cons, ih, show jsWS ' ' = true from rfl]
    · simp [equalizeWSAux, h, deWSL_cons, ih]

theorem deWS_equalize (v : String) : deWS (equalizeWhitespace v) = deWS v :=
  String.ext (deWSL_equalize v.data false)

theorem deWSL_replaceNl (ind : List Char) (h : ∀ c ∈ ind, jsWS c = true) :
    ∀ cs, deWSL (replaceNlL ind cs) = deWSL cs := by
  intro cs
  induction cs with
  | nil => rfl
  | cons c r ih =>
    by_cases hc : c = '\n'
    · subst hc
      simp [replaceNlL, deWSL_cons, jsWS, deWSL_append,
        deWSL_all_ws ind h, ih]
    · simp [replaceNlL, hc, deWSL_cons, ih]

theorem deWS_indentComment (cfg : Config) (s : FmtState) (v : String)
    (hind : ∀ c ∈ cfg.indent.data, jsWS c = true) :
    deWS (indentComment cfg s v) = deWS v :=
  String.ext (deWSL_replaceNl (getIndent cfg s).data
    (getIndent_all_ws cfg s hind) v.data)

theorem deWS_openParenTrim (p : Option Token) (q : String) :
    deWS (match p with
      | some pt =>
        if pt.type ≠ TokenType.WHITESPACE ∧ pt.type ≠ TokenType.OPEN_PAREN then
          trimEnd q
        else q
      | none => q) = deWS q := by
  cases p
  · rfl
  · dsimp only
    split_ifs
    · exact deWS_trimEnd q
    · rfl

/-- The three state components that can influence emitted content. -/
def projEq (s sc : FmtState) : Prop :=
  s.inlineLevel = sc.inlineLevel ∧
  s.previousReservedValue = sc.previousReservedValue ∧
  s.nextLinePrepend = sc.nextLinePrepend

/-- One dispatch step, observed through whitespace erasure, appends
exactly the content contribution of the token, and the content-relevant
state evolves as contentStep says. -/
theorem dispatch_content (cfg : Config) (p : Option Token) (t : Token)
    (rest : List Token) (q : String) (s sc : FmtState) (hpq : projEq s sc)
    (hind : ∀ c ∈ cfg.indent.data, jsWS c = true) :
    deWS (dispatchToken cfg p t rest s q).1 =
      deWS q ++ deWS (contentStep cfg sc t rest).1 ∧
    projEq (dispatchToken cfg p t rest s q).2 (contentStep cfg sc t rest).2 := by
  have hAN : ∀ (s' : FmtState) (q' : String),
      deWS (addNewline cfg s' q') = deWS q' :=
    fun s' q' => deWS_addNewline cfg s' q' hind
  have hIC : ∀ (s' : FmtState) (v : String),
      deWS (indentComment cfg s' v) = deWS v :=
    fun s' v => deWS_indentComment cfg s' v hind
  have hCM : ∀ (s' : FmtState) (v q' : String),
      deWS (checkMaxCharacter cfg s' v q').1 = deWS q' ∧
      (checkMaxCharacter cfg s' v q').2.inlineLevel = s'.inlineLevel ∧
      (checkMaxCharacter cfg s' v q').2.previousReservedValue =
        s'.previousReservedValue ∧
      (checkMaxCharacter cfg s' v q').2.nextLinePrepend =
        s'.nextLinePrepend := by
    intro s' v q'
    unfold checkMaxCharacter
    split_ifs <;> simp_all
  obtain ⟨a, b, c, d, e, pv, n⟩ := s
  obtain ⟨a2, b2, c2, d2, e2, pv2, n2⟩ := sc
  unfold projEq at hpq
  dsimp only at hpq
  obtain ⟨he, hp, hn⟩ := hpq
  subst he hp hn
  obtain ⟨ty, v⟩ := t
  unfold projEq
  cases ty <;>
    simp_all [dispatchToken, contentStep, formatLineComment,
      formatBlockComment, formatToplevelReservedWord,
      formatNewlineReservedWord, formatNewlineReservedWordWithIndent,
      formatOpeningParentheses, formatClosingParentheses, formatPlaceholder,
      formatComma, formatWithSpaceAfter, formatWithoutSpaces,
      formatWithSpaces, deWS_append, deWS_trimEnd, deWS_equalize,
      deWS_empty_str, deWS_space_str, deWS_nl_str, deWS_nlnl_str,
      append_empty_str] <;>
    (try split_ifs) <;>
    (try simp_all [deWS_append, deWS_trimEnd, deWS_empty_str, deWS_space_str,
      deWS_nlnl_str, append_empty_str, deWS_openParenTrim])

/-- The full loop, observed through whitespace erasure, produces exactly
the content sequence of the tokens. -/
theorem runTokens_content (cfg : Config)
    (hind : ∀ c ∈ cfg.indent.data, jsWS c = true) :
    ∀ (rest done : List Token) (q : String) (s sc : FmtState), projEq s sc →
    deWS (runTokens cfg done rest s q).query =
      deWS q ++ deWS (contentRun cfg rest sc) := by
  intro rest
  induction rest with
  | nil =>
    intro done q s sc h
    show deWS q = deWS q ++ deWS ""
    simp [deWS_empty_str, append_empty_str]
  | cons t0 rest ih =>
    intro done q s sc h
    have hsp : (spliceToken s t0).2 = (spliceToken sc t0).2 ∧
        projEq (spliceToken s t0).1 (spliceToken sc t0).1 := by
      unfold spliceToken
      rw [h.2.2]
      split_ifs
      · exact ⟨rfl, ⟨h.1, h.2.1, rfl⟩⟩
      · exact ⟨rfl, h⟩
    obtain ⟨hd1, hd2⟩ := dispatch_content cfg done.head? (spliceToken sc t0).2
      rest q (spliceToken s t0).1 (spliceToken sc t0).1 hsp.2 hind
    rw [← hsp.1] at hd1 hd2
    show deWS (runTokens cfg ((spliceToken s t0).2 :: done) rest _ _).query = _
    rw [ih ((spliceToken s t0).2 :: done) _ _ _ hd2, hd1]
    show _ = deWS q ++ deWS ((contentStep cfg (spliceToken sc t0).1
      (spliceToken sc t0).2 rest).1 ++ contentRun cfg rest _)
    rw [hsp.1, deWS_append, String.append_assoc]

/-- C1 (amended): up to whitespace, the output is exactly the ordered
content sequence of the input tokens — every non-whitespace,
non-placeholder, non-line-comment token value appears in input order with
only its whitespace changed; a placeholder contributes the resolver
output instead; a line comment is rewritten into block-comment form
rather than kept verbatim; and a comma emitted in leading-comma style is
carried to the next content-bearing token (or dropped when none follows),
as contentRun records.  The indent unit must consist of whitespace. -/
theorem token_fidelity_spec (cfg : Config) (toks : List Token)
    (hind : ∀ c ∈ cfg.indent.data, jsWS c = true) :
    deWS (format cfg initialState toks) =
      deWS (contentRun cfg toks initialState) := by
  unfold format getFormattedQueryFromTokens
  rw [deWS_jsTrim]
  have h := runTokens_content cfg hind toks [] "" initialState initialState
    ⟨rfl, rfl, rfl⟩
  rw [h]
  rfl

/-- C1 witness: token fidelity evaluated on the spec's first example. -/
theorem token_fidelity_spec_witness :
    deWS (format ⟨"  ", 0, []⟩ initialState
      [⟨TokenType.RESERVED_TOPLEVEL, "SELECT"⟩, ⟨TokenType.OTHER, "a"⟩,
       ⟨TokenType.OTHER, ","⟩, ⟨TokenType.OTHER, "b"⟩,
       ⟨TokenType.RESERVED_TOPLEVEL, "FROM"⟩, ⟨TokenType.OTHER, "t"⟩]) =
      deWS (contentRun ⟨"  ", 0, []⟩
        [⟨TokenType.RESERVED_TOPLEVEL, "SELECT"⟩, ⟨TokenType.OTHER, "a"⟩,
         ⟨TokenType.OTHER, ","⟩, ⟨TokenType.OTHER, "b"⟩,
         ⟨TokenType.RESERVED_TOPLEVEL, "FROM"⟩, ⟨TokenType.OTHER, "t"⟩]
        initialState) :=
  token_fidelity_spec ⟨"  ", 0, []⟩
    [⟨TokenType.RESERVED_TOPLEVEL, "SELECT"⟩, ⟨TokenType.OTHER, "a"⟩,
     ⟨TokenType.OTHER, ","⟩, ⟨TokenType.OTHER, "b"⟩,
     ⟨TokenType.RESERVED_TOPLEVEL, "FROM"⟩, ⟨TokenType.OTHER, "t"⟩]
    (by decide)

/-! Trailing-whitespace lemmas for the output-shape claim. -/

theorem stb_imp_jsWS (c : Char) : stb c = true → jsWS c = true := by
  intro h
  simp only [stb, Bool.or_eq_true, decide_eq_true_eq] at h
  rcases h with h | h <;> simp [jsWS, h]

theorem stb_ne_nl (c : Char) : stb c = true → c ≠ '\n' := by
  intro h e
  subst e
  simp [stb] at h

theorem noSTB_tail {c : Char} {l : List Char}
    (h : noSpaceTabBeforeNl (c :: l) = true) : noSpaceTabBeforeNl l = true := by
  cases l with
  | nil => rfl
  | cons y l' =>
    have h' := h
    simp only [noSpaceTabBeforeNl, Bool.and_eq_true] at h'
    exact h'.2

theorem noSTB_head {c y : Char} {l : List Char}
    (h : noSpaceTabBeforeNl (c :: y :: l) = true) :
    (!(stb c && decide (y = '\n'))) = true := by
  simp only [noSpaceTabBeforeNl, Bool.and_eq_true] at h
  exact h.1

theorem noSTB_append (a b : List Char) (ha : noSpaceTabBeforeNl a = true)
    (hb : noSpaceTabBeforeNl b = true)
    (h : (∀ x, a.getLast? = some x → stb x = false) ∨
         (∀ y, b.head? = some y → y ≠ '\n')) :
    noSpaceTabBeforeNl (a ++ b) = true := by
  induction a with
  | nil => simpa using hb
  | cons x a' ih =>
    cases a' with
    | nil =>
      cases b with
      | nil => rfl
      | cons y b' =>
        show noSpaceTabBeforeNl (x :: y :: b') = true
        have h1 : ¬(stb x = true ∧ y = '\n') := by
          rcases h with h | h
          · rintro ⟨hx, -⟩
            rw [h x rfl] at hx
            exact Bool.false_ne_true hx
          · rintro ⟨-, hy⟩
            exact h y rfl hy
        simp only [noSpaceTabBeforeNl, Bool.and_eq_true]
        refine ⟨?_, hb⟩
        simp only [Bool.not_eq_true']
        by_cases hx : stb x = true
        · simp [hx]
          intro e
          exact h1 ⟨hx, e⟩
        · simp [Bool.not_eq_true] at hx
          simp [hx]
    | cons x2 a'' =>
      show noSpaceTabBeforeNl (x :: x2 :: (a'' ++ b)) = true
      have hrest : noSpaceTabBeforeNl ((x2 :: a'') ++ b) = true := by
        apply ih (noSTB_tail ha)
        rcases h with h | h
        · exact Or.inl fun x hx => h x (by rw [List.getLast?_cons_cons]; exact hx)
        · exact Or.inr h
      have hpair := noSTB_head ha
      simp only [noSpaceTabBeforeNl, Bool.and_eq_true]
      exact ⟨hpair, hrest⟩

theorem noSTB_of_no_nl (cs : List Char) :
    '\n' ∉ cs → noSpaceTabBeforeNl cs = true := by
  induction cs with
  | nil => intro h; rfl
  | cons c r ih =>
    intro h
    cases r with
    | nil => rfl
    | cons y r' =>
      have hy : ¬(y = '\n') := fun e => h (by simp [e])
      have ht : noSpaceTabBeforeNl (y :: r') = true :=
        ih fun hm => h (List.mem_cons_of_mem _ hm)
      simp only [noSpaceTabBeforeNl, Bool.and_eq_true]
      refine ⟨?_, ht⟩
      simp [hy]

theorem noSTB_front (a b : List Char)
    (h : noSpaceTabBeforeNl (a ++ b) = true) : noSpaceTabBeforeNl a = true := by
  induction a with
  | nil => rfl
  | cons x a' ih =>
    cases a' with
    | nil => rfl
    | cons x2 a'' =>
      have h' : noSpaceTabBeforeNl ((x2 :: a'') ++ b) = true := noSTB_tail h
      have hp := noSTB_head (c := x) (y := x2) (l := a'' ++ b) h
      simp only [noSpaceTabBeforeNl, Bool.and_eq_true]
      exact ⟨hp, ih h'⟩

theorem noSTB_suffix (a b : List Char)
    (h : noSpaceTabBeforeNl (a ++ b) = true) : noSpaceTabBeforeNl b = true := by
  induction a with
  | nil => exact h
  | cons x a' ih => exact ih (noSTB_tail h)

theorem noSTB_trimEndL (cs : List Char) (h : noSpaceTabBeforeNl cs = true) :
    noSpaceTabBeforeNl (trimEndL cs) = true :=
  noSTB_front _ _ (trimEndL_decomp cs ▸ h)

theorem head_ne_nl_of_not_mem {l : List Char} (h : '\n' ∉ l) :
    ∀ y, l.head? = some y → y ≠ '\n' := by
  intro y hy e
  subst e
  cases l with
  | nil => simp at hy
  | cons c r =>
    simp at hy
    subst hy
    exact h (List.mem_cons_self _ _)

theorem noSTB_append_str (q v : String) (hq : noSpaceTabBeforeNl q.data = true)
    (hv : '\n' ∉ v.data) : noSpaceTabBeforeNl (q ++ v).data = true := by
  rw [String.data_append]
  exact noSTB_append _ _ hq (noSTB_of_no_nl _ hv)
    (Or.inr (head_ne_nl_of_not_mem hv))

theorem noSTB_trimEnd_str (q : String) (hq : noSpaceTabBeforeNl q.data = true) :
    noSpaceTabBeforeNl (trimEnd q).data = true := by
  rw [trimEnd_data]
  exact noSTB_trimEndL _ hq

theorem getIndent_all_stb (cfg : Config) (s : FmtState)
    (hind : ∀ c ∈ cfg.indent.data, stb c = true) :
    ∀ c ∈ (getIndent cfg s).data, stb c = true := by
  intro c hc
  unfold getIndent at hc
  rw [show (String.mk (List.replicate
      (s.topLevel + s.blockLevel + s.newLineWithIndentLevel + s.maxCharacterLevel)
      cfg.indent.data).flatten).data = (List.replicate
      (s.topLevel + s.blockLevel + s.newLineWithIndentLevel + s.maxCharacterLevel)
      cfg.indent.data).flatten from rfl, List.mem_flatten] at hc
  obtain ⟨l, hl, hcl⟩ := hc
  rw [List.mem_replicate] at hl
  exact hind c (hl.2 ▸ hcl)

theorem noSTB_addNewline (cfg : Config) (s : FmtState) (q : String)
    (hind : ∀ c ∈ cfg.indent.data, stb c = true)
    (hq : noSpaceTabBeforeNl q.data = true) :
    noSpaceTabBeforeNl (addNewline cfg s q).data = true := by
  unfold addNewline
  rw [String.data_append, String.data_append, trimEnd_data, List.append_assoc]
  have hindent : ∀ c ∈ (getIndent cfg s).data, stb c = true :=
    getIndent_all_stb cfg s hind
  apply noSTB_append
  · exact noSTB_trimEndL _ hq
  · show noSpaceTabBeforeNl ('\n' :: (getIndent cfg s).data) = true
    cases hd : (getIndent cfg s).data with
    | nil => rfl
    | cons c ind' =>
      simp only [noSpaceTabBeforeNl, Bool.and_eq_true]
      constructor
      · simp [stb]
      · apply noSTB_of_no_nl
        intro hm
        have := hindent '\n' (by rw [hd]; exact hm)
        exact stb_ne_nl '\n' this rfl
  · exact Or.inl fun x hx => by
      have := trimEndL_getLast q.data x hx
      by_cases hs : stb x = true
      · rw [stb_imp_jsWS x hs] at this
        simp at this
      · simpa using hs

theorem no_nl_equalize (cs : List Char) :
    ∀ b, '\n' ∉ equalizeWSAux b cs := by
  induction cs with
  | nil => intro b; simp [equalizeWSAux]
  | cons c r ih =>
    intro b
    unfold equalizeWSAux
    by_cases h : jsWS c = true
    · rw [if_pos h]
      cases b
      · rw [if_neg (by simp)]
        intro hm
        rcases List.mem_cons.mp hm with hm | hm
        · simp at hm
        · exact ih true hm
      · rw [if_pos rfl]
        exact ih true
    · rw [if_neg h]
      intro hm
      rcases List.mem_cons.mp hm with hm | hm
      · subst hm
        simp [jsWS] at h
      · exact ih false hm

theorem replaceDashDash_subset (cs : List Char) (c : Char) :
    c ∈ replaceDashDash cs → c ∈ cs ∨ c = '/' ∨ c = '*' := by
  induction cs with
  | nil => intro h; simp [replaceDashDash] at h
  | cons x r ih =>
    intro h
    rw [replaceDashDash.eq_def] at h
    dsimp only at h
    split at h
    · rcases List.mem_cons.mp h with h1 | h1
      · exact Or.inr (Or.inl h1)
      rcases List.mem_cons.mp h1 with h2 | h2
      · exact Or.inr (Or.inr h2)
      · exact Or.inl (List.mem_cons_of_mem _ (List.mem_cons_of_mem _ h2))
    · rcases List.mem_cons.mp h with h1 | h1
      · exact Or.inl (by simp [h1])
      · rcases ih h1 with h2 | h2
        · exact Or.inl (List.mem_cons_of_mem _ h2)
        · exact Or.inr h2

theorem removeFirstNl_subset (cs : List Char) (c : Char) :
    c ∈ removeFirstNl cs → c ∈ cs := by
  induction cs with
  | nil => intro h; simp [removeFirstNl] at h
  | cons x r ih =>
    intro h
    rw [removeFirstNl] at h
    split_ifs at h
    · exact List.mem_cons_of_mem _ h
    · rcases List.mem_cons.mp h with h1 | h1
      · simp [h1]
      · exact List.mem_cons_of_mem _ (ih h1)

theorem no_nl_lineCommentText (v : String) (hv : '\n' ∉ v.data) :
    '\n' ∉ (lineCommentText v).data := by
  unfold lineCommentText
  rw [String.data_append]
  intro hm
  rcases List.mem_append.mp hm with hm | hm
  · have h1 := removeFirstNl_subset _ _ hm
    rcases replaceDashDash_subset _ _ h1 with h | h | h
    · exact hv h
    · simp at h
    · simp at h
  · simp at hm

theorem lookupValue_mem (ps : List (String × String)) (v x : String) :
    lookupValue ps v = some x → ∃ k, (k, x) ∈ ps := by
  induction ps with
  | nil => intro h; simp [lookupValue] at h
  | cons kv rest ih =>
    intro h
    obtain ⟨k0, x0⟩ := kv
    rw [lookupValue] at h
    split_ifs at h with hk
    · injection h with h
      subst h
      exact ⟨k0, List.mem_cons_self _ _⟩
    · obtain ⟨k, hkm⟩ := ih h
      exact ⟨k, List.mem_cons_of_mem _ hkm⟩

theorem no_nl_paramsGet (ps : List (String × String)) (v : String)
    (hps : ∀ kv ∈ ps, '\n' ∉ kv.2.data) (hv : '\n' ∉ v.data) :
    '\n' ∉ (paramsGet ps v).data := by
  unfold paramsGet
  cases h : lookupValue ps v with
  | none => exact hv
  | some x =>
    obtain ⟨k, hk⟩ := lookupValue_mem ps v x h
    exact hps (k, x) hk

set_option maxHeartbeats 2000000 in
/-- One dispatch step keeps the buffer free of space or tab characters
standing before a newline, provided the token is not a block comment, its
value holds no newline unless it is whitespace, the indent unit is made of
spaces and tabs and the parameter values hold no newline. -/
theorem dispatch_noSTB (cfg : Config) (p : Option Token) (t : Token)
    (rest : List Token) (s : FmtState) (q : String)
    (hind : ∀ c ∈ cfg.indent.data, stb c = true)
    (hps : ∀ kv ∈ cfg.params, '\n' ∉ kv.2.data)
    (hbc : t.type ≠ TokenType.BLOCK_COMMENT)
    (hv : t.type = TokenType.WHITESPACE ∨ '\n' ∉ t.value.data)
    (hq : noSpaceTabBeforeNl q.data = true) :
    noSpaceTabBeforeNl (dispatchToken cfg p t rest s q).1.data = true := by
  have hAN : ∀ (s' : FmtState) (q' : String),
      noSpaceTabBeforeNl q'.data = true →
      noSpaceTabBeforeNl (addNewline cfg s' q').data = true :=
    fun s' q' h => noSTB_addNewline cfg s' q' hind h
  have hSP : '\n' ∉ (" " : String).data := by simp
  obtain ⟨ty, v⟩ := t
  cases ty
  case WHITESPACE => exact hq
  case LINE_COMMENT =>
    have hv' : '\n' ∉ v.data := by simpa using hv
    exact hAN _ _ (noSTB_append_str q _ hq (no_nl_lineCommentText v hv'))
  case BLOCK_COMMENT => exact absurd rfl hbc
  case RESERVED_TOPLEVEL =>
    exact hAN _ _ (noSTB_append_str _ _ (hAN _ _ hq)
      (no_nl_equalize v.data false))
  case RESERVED_NEWLINE =>
    show noSpaceTabBeforeNl ((addNewline cfg _ q ++ equalizeWhitespace v ++ " ")).data = true
    exact noSTB_append_str _ _ (noSTB_append_str _ _ (hAN _ _ hq)
      (no_nl_equalize v.data false)) hSP
  case RESERVED_NEWLINE_WITH_INDENT =>
    exact noSTB_append_str _ _ (noSTB_append_str _ _ (hAN _ _ hq)
      (no_nl_equalize v.data false)) hSP
  case RESERVED =>
    have hv' : '\n' ∉ v.data := by simpa using hv
    have hcm : noSpaceTabBeforeNl (checkMaxCharacter cfg s v q).1.data = true := by
      unfold checkMaxCharacter
      split_ifs
      · exact hAN _ _ hq
      · exact hq
    exact noSTB_append_str _ _ (noSTB_append_str _ _ hcm hv') hSP
  case OPEN_PAREN =>
    have hv' : '\n' ∉ v.data := by simpa using hv
    show noSpaceTabBeforeNl (formatOpeningParentheses cfg s p ⟨TokenType.OPEN_PAREN, v⟩ rest q).1.data = true
    unfold formatOpeningParentheses
    dsimp only
    cases p with
    | none =>
      dsimp only
      split_ifs
      · exact noSTB_append_str _ _ hq hv'
      · exact hAN _ _ (noSTB_append_str _ _ (hAN _ _ hq) hv')
    | some pt =>
      dsimp only
      split_ifs
      · exact noSTB_append_str _ _ (noSTB_trimEnd_str _ hq) hv'
      · exact noSTB_append_str _ _ hq hv'
      · exact hAN _ _ (noSTB_append_str _ _ (hAN _ _ (noSTB_trimEnd_str _ hq)) hv')
      · exact hAN _ _ (noSTB_append_str _ _ (hAN _ _ hq) hv')
  case CLOSE_PAREN =>
    have hv' : '\n' ∉ v.data := by simpa using hv
    show noSpaceTabBeforeNl (formatClosingParentheses cfg s ⟨TokenType.CLOSE_PAREN, v⟩ q).1.data = true
    unfold formatClosingParentheses
    split_ifs
    · exact noSTB_append_str _ _ (noSTB_append_str _ _ (noSTB_trimEnd_str _ hq) hv') hSP
    · exact noSTB_append_str _ _ (noSTB_append_str _ _ (hAN _ _ hq) hv') hSP
  case PLACEHOLDER =>
    have hv' : '\n' ∉ v.data := by simpa using hv
    exact noSTB_append_str _ _ (noSTB_append_str _ _ hq
      (no_nl_paramsGet cfg.params v hps hv')) hSP
  case OTHER =>
    have hv' : '\n' ∉ v.data := by simpa using hv
    show noSpaceTabBeforeNl ((if v = "," then formatComma cfg s ⟨TokenType.OTHER, v⟩ q
        else if v = ":" then (formatWithSpaceAfter ⟨TokenType.OTHER, v⟩ q, s)
        else if v = "." then (formatWithoutSpaces ⟨TokenType.OTHER, v⟩ q, s)
        else if v = ";" then (formatWithoutSpaces ⟨TokenType.OTHER, v⟩ q ++ "\n\n", s)
        else
          (formatWithSpaces ⟨TokenType.OTHER, v⟩
            (checkMaxCharacter cfg s v q).1,
           (checkMaxCharacter cfg s v q).2))).1.data = true
    split_ifs with h1 h2 h3 h4
    · unfold formatComma
      dsimp only
      split_ifs
      · exact noSTB_append_str _ _ (noSTB_append_str _ _ (noSTB_trimEnd_str _ hq) hv') hSP
      · exact hAN _ _ (noSTB_append_str _ _ (noSTB_trimEnd_str _ hq) hSP)
    · exact noSTB_append_str _ _ (noSTB_append_str _ _ (noSTB_trimEnd_str _ hq) hv') hSP
    · exact noSTB_append_str _ _ (noSTB_trimEnd_str _ hq) hv'
    · subst h4
      show noSpaceTabBeforeNl ((trimEnd q ++ ";") ++ "\n\n").data = true
      rw [String.data_append]
      apply noSTB_append
      · exact noSTB_append_str _ _ (noSTB_trimEnd_str _ hq) (by simp)
      · rfl
      · left
        intro x hx
        rw [String.data_append, trimEnd_data,
          show (";" : String).data = [';'] from rfl,
          List.getLast?_concat] at hx
        simp at hx
        subst hx
        rfl
    · have hcm : noSpaceTabBeforeNl (checkMaxCharacter cfg s v q).1.data = true := by
        unfold checkMaxCharacter
        split_ifs
        · exact hAN _ _ hq
        · exact hq
      exact noSTB_append_str _ _ (noSTB_append_str _ _ hcm hv') hSP

/-- The whole loop keeps the buffer free of space or tab before newline. -/
theorem runTokens_noSTB (cfg : Config)
    (hind : ∀ c ∈ cfg.indent.data, stb c = true)
    (hps : ∀ kv ∈ cfg.params, '\n' ∉ kv.2.data) :
    ∀ (rest done : List Token) (s : FmtState) (q : String),
    (∀ t ∈ rest, t.type ≠ TokenType.BLOCK_COMMENT ∧
      (t.type = TokenType.WHITESPACE ∨ '\n' ∉ t.value.data)) →
    (s.nextLinePrepend = "" ∨ s.nextLinePrepend = ",") →
    noSpaceTabBeforeNl q.data = true →
    noSpaceTabBeforeNl (runTokens cfg done rest s q).query.data = true := by
  intro rest
  induction rest with
  | nil => intro done s q hrest hp hq; exact hq
  | cons t0 rest ih =>
    intro done s q hrest hp hq
    have h0 := hrest t0 (List.mem_cons_self _ _)
    have hsplice : (spliceToken s t0).2.type = t0.type ∧
        '\n' ∉ ((spliceToken s t0).2.value).data ∨
        (spliceToken s t0).2 = t0 := by
      unfold spliceToken
      split_ifs with hc
      · left
        refine ⟨rfl, ?_⟩
        rw [String.data_append]
        intro hm
        rcases List.mem_append.mp hm with hm | hm
        · rcases hp with hp | hp <;> rw [hp] at hm <;> simp at hm
        · rcases h0.2 with h | h
          · exact absurd h hc.2.2.2
          · exact h hm
      · right; rfl
    have hbc1 : (spliceToken s t0).2.type ≠ TokenType.BLOCK_COMMENT := by
      rcases hsplice with ⟨hty, -⟩ | he
      · rw [hty]; exact h0.1
      · rw [he]; exact h0.1
    have hv1 : (spliceToken s t0).2.type = TokenType.WHITESPACE ∨
        '\n' ∉ ((spliceToken s t0).2.value).data := by
      rcases hsplice with ⟨hty, hnl⟩ | he
      · exact Or.inr hnl
      · rw [he]; exact h0.2
    have hq1 := dispatch_noSTB cfg done.head? (spliceToken s t0).2 rest
      (spliceToken s t0).1 q hind hps hbc1 hv1 hq
    have hp0 : ((spliceToken s t0).1.nextLinePrepend = "" ∨
        (spliceToken s t0).1.nextLinePrepend = ",") := by
      unfold spliceToken
      split_ifs
      · left; rfl
      · exact hp
    have hp1 : ((dispatchToken cfg done.head? (spliceToken s t0).2 rest
        (spliceToken s t0).1 q).2.nextLinePrepend = "" ∨
        (dispatchToken cfg done.head? (spliceToken s t0).2 rest
        (spliceToken s t0).1 q).2.nextLinePrepend = ",") := by
      rcases dispatch_prepend_cases cfg done.head? (spliceToken s t0).2 rest
        (spliceToken s t0).1 q with h | h
      · rw [h]; exact hp0
      · exact Or.inr h
    exact ih ((spliceToken s t0).2 :: done) _ _
      (fun t ht => hrest t (List.mem_cons_of_mem _ ht)) hp1 hq1

theorem noSTB_trimStartL (cs : List Char)
    (h : noSpaceTabBeforeNl cs = true) :
    noSpaceTabBeforeNl (trimStartL cs) = true := by
  have hd := List.takeWhile_append_dropWhile jsWS cs
  exact noSTB_suffix (cs.takeWhile jsWS) (cs.dropWhile jsWS) (by rw [hd]; exact h)

theorem head?_trimEndL (l : List Char) :
    ∀ x, (trimEndL l).head? = some x → l.head? = some x := by
  intro x hx
  have hd := trimEndL_decomp l
  cases he : trimEndL l with
  | nil => rw [he] at hx; simp at hx
  | cons c r =>
    rw [he] at hx hd
    simp at hx
    subst hx
    rw [hd]
    rfl

theorem trimmedEnds_of (cs : List Char)
    (h1 : ∀ x, cs.head? = some x → jsWS x = false)
    (h2 : ∀ x, cs.getLast? = some x → jsWS x = false) :
    trimmedEnds cs = true := by
  unfold trimmedEnds
  cases hh : cs.head? <;> cases hl : cs.getLast? <;> simp_all

theorem trimmedEnds_jsTrim (s : String) : trimmedEnds (jsTrim s).data = true := by
  apply trimmedEnds_of
  · intro x hx
    exact trimStartL_head s.data x (head?_trimEndL _ x hx)
  · intro x hx
    exact trimEndL_getLast _ x hx

/-- C5 (amended): when the indent unit is spaces and tabs, the input has
no block-comment token, every non-whitespace token value is free of
newlines and the bound parameter values are too, the formatted output has
no leading or trailing whitespace and no line of it ends in a space or
tab.  Multi-line block comments violate this — indentComment keeps the
comment's own interior trailing whitespace (see the counterexample). -/
theorem output_whitespace_spec (cfg : Config) (toks : List Token)
    (hind : ∀ c ∈ cfg.indent.data, stb c = true)
    (hbc : ∀ t ∈ toks, t.type ≠ TokenType.BLOCK_COMMENT)
    (hnl : ∀ t ∈ toks, t.type = TokenType.WHITESPACE ∨ '\n' ∉ t.value.data)
    (hps : ∀ kv ∈ cfg.params, '\n' ∉ kv.2.data) :
    noSpaceTabBeforeNl (format cfg initialState toks).data = true ∧
    trimmedEnds (format cfg initialState toks).data = true := by
  have hrun := runTokens_noSTB cfg hind hps toks [] initialState ""
    (fun t ht => ⟨hbc t ht, hnl t ht⟩) (Or.inl rfl) rfl
  constructor
  · show noSpaceTabBeforeNl (trimEndL (trimStartL
      (runTokens cfg [] toks initialState "").query.data)) = true
    exact noSTB_trimEndL _ (noSTB_trimStartL _ hrun)
  · exact trimmedEnds_jsTrim _

/-- C5 witness: the output shape on a small comment-free query. -/
theorem output_whitespace_spec_witness :
    noSpaceTabBeforeNl (format ⟨"  ", 0, []⟩ initialState
      [⟨TokenType.RESERVED_TOPLEVEL, "SELECT"⟩, ⟨TokenType.WHITESPACE, " "⟩,
       ⟨TokenType.OTHER, "a"⟩]).data = true ∧
    trimmedEnds (format ⟨"  ", 0, []⟩ initialState
      [⟨TokenType.RESERVED_TOPLEVEL, "SELECT"⟩, ⟨TokenType.WHITESPACE, " "⟩,
       ⟨TokenType.OTHER, "a"⟩]).data = true :=
  output_whitespace_spec ⟨"  ", 0, []⟩
    [⟨TokenType.RESERVED_TOPLEVEL, "SELECT"⟩, ⟨TokenType.WHITESPACE, " "⟩,
     ⟨TokenType.OTHER, "a"⟩]
    (by decide) (by decide) (by decide) (by decide)

/-- C8 counterexample: the blank line emitted after a semicolon is trimmed
away by the addNewline of a following top-level keyword, so the output has
no empty line between the semicolon and the keyword. -/
theorem semicolon_blank_line_cx :
    format ⟨"  ", 0, []⟩ initialState
      [⟨TokenType.OTHER, "a"⟩, ⟨TokenType.OTHER, ";"⟩,
       ⟨TokenType.RESERVED_TOPLEVEL, "SELECT"⟩] = "a;\nSELECT" ∧
    containsSeq (";\n\n").data
      (format ⟨"  ", 0, []⟩ initialState
        [⟨TokenType.OTHER, "a"⟩, ⟨TokenType.OTHER, ";"⟩,
         ⟨TokenType.RESERVED_TOPLEVEL, "SELECT"⟩]).data = false := by
  constructor <;> rfl

end SqlFmt
